import Mathlib

/-!
Verification of `walkies.py`: a tree walker that derives a minimal
passwd/group pair from the ownership of the files and directories under a
root path.  The Python source is shallowly embedded below: the host identity
database (`pwd`/`grp`) is a finite table of records, Python dicts are
insertion-ordered association lists with unique keys, Python sets are
insertion-ordered duplicate-free lists, and exceptions are `Except`.
-/

namespace Walkies

/-- Result of a successful `stat` call: the owning user and group ids. -/
structure Stat where
  st_uid : Nat
  st_gid : Nat
deriving Repr, DecidableEq

/-- The two entry kinds modeled by the program (class `FObj` in the source). -/
inductive FObj where
  | FILE
  | DIR
deriving Repr, DecidableEq

/-- One line of the host passwd database, as returned by `pwd.getpwuid` /
`pwd.getpwnam`: name, uid, primary gid, gecos comment. -/
structure PwEnt where
  pw_name : String
  pw_uid : Nat
  pw_gid : Nat
  pw_gecos : String
deriving Repr, DecidableEq

/-- One line of the host group database, as returned by `grp.getgrgid`:
name, gid, member-name roster. -/
structure GrEnt where
  gr_name : String
  gr_gid : Nat
  gr_mem : List String
deriving Repr, DecidableEq

/-- The host identity database backing the `pwd` and `grp` modules. -/
structure IdDb where
  users : List PwEnt
  groups : List GrEnt
deriving Repr

/-- `pwd.getpwuid`, returning `none` where Python raises `KeyError`. -/
def getpwuid (db : IdDb) (uid : Nat) : Option PwEnt :=
  db.users.find? (fun u => u.pw_uid == uid)

/-- `pwd.getpwnam`, returning `none` where Python raises `KeyError`. -/
def getpwnam (db : IdDb) (name : String) : Option PwEnt :=
  db.users.find? (fun u => u.pw_name == name)

/-- `grp.getgrgid`, returning `none` where Python raises `KeyError`. -/
def getgrgid (db : IdDb) (gid : Nat) : Option GrEnt :=
  db.groups.find? (fun g => g.gr_gid == gid)

/-- The dataclass `Ownership` of the source.  `members` is a Python
`set[str]`, modeled as an insertion-ordered list without duplicates. -/
structure Ownership where
  name : String
  id : Nat
  pgrp : Nat
  descr : String
  files : List String
  dirs : List String
  members : List String
deriving Repr, DecidableEq

/-- A Python `dict[int, Ownership]`: insertion-ordered association list. -/
abbrev Table := List (Nat × Ownership)

/-- Dict lookup (`d[k]` / `k in d`). -/
def dictFind : Table → Nat → Option Ownership
  | [], _ => none
  | p :: t, k => if p.1 = k then some p.2 else dictFind t k

/-- Dict store `d[k] = v`: replaces the value in place if the key is
present, otherwise appends the new binding at the end. -/
def dictInsert : Table → Nat → Ownership → Table
  | [], k, v => [(k, v)]
  | p :: t, k, v => if p.1 = k then (k, v) :: t else p :: dictInsert t k v

/-- `del d[k]`. -/
def dictErase (t : Table) (k : Nat) : Table :=
  t.filter (fun p => p.1 != k)

/-- `list(d.keys())`, in insertion order. -/
def dictKeys (t : Table) : List Nat :=
  t.map Prod.fst

/-- In-place mutation of the record stored at key `k`. -/
def dictModify : Table → Nat → (Ownership → Ownership) → Table
  | [], _, _ => []
  | p :: t, k, f => if p.1 = k then (p.1, f p.2) :: t else p :: dictModify t k f

/-- Python `set.add`: appends unless already present. -/
def setAdd {α : Type} [DecidableEq α] (s : List α) (x : α) : List α :=
  if x ∈ s then s else s ++ [x]

/-- A Python set built by adding the elements of a list in order
(the `for mem in grpdef[3]: members.add(mem)` loop of the source). -/
def pySet (ms : List String) : List String :=
  ms.foldl setAdd []

/-- The mutable state of class `Walker`: `self._by_user`, `self._by_group`,
`self._pgrps`. -/
structure WalkerState where
  by_user : Table
  by_group : Table
  pgrps : List Nat
deriving Repr, DecidableEq

/-- The state set up by `Walker.__init__`. -/
def initState : WalkerState :=
  { by_user := [], by_group := [], pgrps := [] }

/-- Append the visited path to a record's `files` or `dirs` list according
to the entry kind. -/
def appendFn (item : String) : FObj → Ownership → Ownership
  | .FILE, r => { r with files := r.files ++ [item] }
  | .DIR, r => { r with dirs := r.dirs ++ [item] }

/-- The final four lines of `Walker._add_thing`: append the visited path to
the owning user's and owning group's `files` or `dirs` list. -/
def appendItem (st : WalkerState) (uid gid : Nat) (item : String) (itype : FObj) :
    WalkerState :=
  { st with
    by_user := dictModify st.by_user uid (appendFn item itype),
    by_group := dictModify st.by_group gid (appendFn item itype) }

/-- The user record `_add_thing` creates on first sight of a uid: empty
path collections, fields from the passwd entry. -/
def mkUserRec (uid : Nat) (pwent : PwEnt) : Ownership :=
  { name := pwent.pw_name, id := uid, pgrp := pwent.pw_gid,
    descr := pwent.pw_gecos, files := [], dirs := [], members := [] }

/-- The group record `_add_thing` creates for the owning gid of an entry:
empty member set (the roster is NOT copied here). -/
def mkGroupRec (gid : Nat) (gent : GrEnt) : Ownership :=
  { name := gent.gr_name, id := gid, pgrp := gid,
    descr := "", files := [], dirs := [], members := [] }

/-- The group record `_add_thing` creates for the owner's primary gid when
absent: member set seeded from the identity database roster. -/
def mkPrimaryGroupRec (ugrp : Nat) (grpdef : GrEnt) : Ownership :=
  { name := grpdef.gr_name, id := ugrp, pgrp := ugrp,
    descr := "", files := [], dirs := [], members := pySet grpdef.gr_mem }

/-- `if uid not in self._by_user: self._by_user[uid] = Ownership(...)`. -/
def insertUser (st : WalkerState) (uid : Nat) (urec : Ownership) : WalkerState :=
  if (dictFind st.by_user uid).isSome then st
  else { st with by_user := dictInsert st.by_user uid urec }

/-- `if gid not in self._by_group: self._by_group[gid] = Ownership(...)`. -/
def insertGroup (st : WalkerState) (gid : Nat) (grec : Ownership) : WalkerState :=
  if (dictFind st.by_group gid).isSome then st
  else { st with by_group := dictInsert st.by_group gid grec }

/-- The record-creation and path-append part of `_add_thing`, after the
owning uid and gid have been resolved to `pwent` and `gent`: add the
primary gid to `self._pgrps`, materialize the user record, the owning-group
record, and (if still absent, seeding its members from the roster) the
primary-group record, then append the path. -/
def addThingResolved (db : IdDb) (st : WalkerState) (item : String) (itype : FObj)
    (s : Stat) (pwent : PwEnt) (gent : GrEnt) : Except String WalkerState :=
  let st3 :=
    insertGroup
      (insertUser { st with pgrps := setAdd st.pgrps pwent.pw_gid }
        s.st_uid (mkUserRec s.st_uid pwent))
      s.st_gid (mkGroupRec s.st_gid gent)
  if (dictFind st3.by_group pwent.pw_gid).isSome then
    .ok (appendItem st3 s.st_uid s.st_gid item itype)
  else
    match getgrgid db pwent.pw_gid with
    | none => .error "KeyError: getgrgid"
    | some grpdef =>
      let bg := dictInsert st3.by_group pwent.pw_gid (mkPrimaryGroupRec pwent.pw_gid grpdef)
      let st4 := { st3 with by_group := bg }
      .ok (appendItem st4 s.st_uid s.st_gid item itype)

/-- `Walker._add_thing(item, itype)`.  `stat` is the outcome of
`item.stat()` (which follows symbolic links): `none` when it raises
`FileNotFoundError`/`PermissionError`, in which case the entry is skipped.
A `pwd`/`grp` lookup with no record raises `KeyError`, which the source does
not catch; it is modeled as `Except.error` and aborts the run. -/
def addThing (db : IdDb) (st : WalkerState) (item : String) (itype : FObj)
    (stat : Option Stat) : Except String WalkerState :=
  match stat with
  | none => .ok st
  | some s =>
    match getpwuid db s.st_uid with
    | none => .error "KeyError: getpwuid"
    | some pwent =>
      match getgrgid db s.st_gid with
      | none => .error "KeyError: getgrgid"
      | some gent => addThingResolved db st item itype s pwent gent

/-- One entry of the scanned directory tree, as classified by
`Path.walk(follow_symlinks=False)`.  With `follow_symlinks=False`,
`entry.is_dir(follow_symlinks=False)` is true only for real directories, so
symbolic links, device nodes, pipes and sockets are all listed among the
non-directory names of their parent and are never descended into.  The
`stat` carried by `symlink` is the metadata of the link's target (since
`Path.stat()` follows links); `none` means the target does not exist. -/
inductive FsNode where
  | file (name : String) (stat : Option Stat)
  | dir (name : String) (stat : Option Stat) (children : List FsNode)
  | symlink (name : String) (targetStat : Option Stat)
  | special (name : String) (stat : Option Stat)
deriving Repr

/-- The entry name within its parent directory. -/
def FsNode.name : FsNode → String
  | .file n _ => n
  | .dir n _ _ => n
  | .symlink n _ => n
  | .special n _ => n

/-- The result `item.stat()` would produce for this entry (`none` when the
call raises: the entry vanished, is unreadable, or is a broken symlink). -/
def FsNode.statOf : FsNode → Option Stat
  | .file _ s => s
  | .dir _ s _ => s
  | .symlink _ s => s
  | .special _ s => s

/-- Whether `Path.walk(follow_symlinks=False)` lists this entry among the
`dirs` of its parent's triple (true only for real directories). -/
def FsNode.inDirnames : FsNode → Bool
  | .dir _ _ _ => true
  | _ => false

/-- One `_add_thing` call: the path passed, the `itype`, and the outcome the
subsequent `stat` will observe. -/
abbrev Visit := String × FObj × Option Stat

/-- `root / name`. -/
def childPath (p n : String) : String := p ++ "/" ++ n

/-- The `_add_thing` calls issued for one yielded `(root, dirs, files)`
triple: files first, then dirs, as in `Walker.build`. -/
def tripleVisits (p : String) (cs : List FsNode) : List Visit :=
  (cs.filter (fun c => !c.inDirnames)).map (fun c => (childPath p c.name, FObj.FILE, c.statOf))
    ++ (cs.filter (fun c => c.inDirnames)).map (fun c => (childPath p c.name, FObj.DIR, c.statOf))

mutual

/-- Visits contributed by the subtree rooted at one entry of directory `p`
(bottom-up walk: a directory's own triple is yielded after its subtree). -/
def nodeSubVisits (p : String) : FsNode → List Visit
  | .dir n _ cs => listSubVisits (childPath p n) cs ++ tripleVisits (childPath p n) cs
  | _ => []

/-- Visits contributed by the subtrees of a list of sibling entries. -/
def listSubVisits (p : String) : List FsNode → List Visit
  | [] => []
  | c :: cs => nodeSubVisits p c ++ listSubVisits p cs

end

/-- All `_add_thing` calls issued by `Walker.build` for a root directory at
path `top` with entries `cs`, in `Path.walk(top_down=False)` order. -/
def walkVisits (top : String) (cs : List FsNode) : List Visit :=
  listSubVisits top cs ++ tripleVisits top cs

/-- The scanned root: either the path does not exist (scandir of the root
raises and `Path.walk` with `on_error=None` swallows the error, yielding
nothing), or it is a directory with the given entries. -/
inductive FsRoot where
  | missing
  | present (children : List FsNode)

/-- The visit sequence of `Walker.build` for a given root. -/
def buildVisits (top : String) : FsRoot → List Visit
  | .missing => []
  | .present cs => walkVisits top cs

/-- The traversal loop of `Walker.build`: `_add_thing` on every visit, a
`KeyError` aborting the run. -/
def aggregateVisits (db : IdDb) : WalkerState → List Visit → Except String WalkerState
  | st, [] => .ok st
  | st, v :: vs =>
    match addThing db st v.1 v.2.1 v.2.2 with
    | .error e => .error e
    | .ok st' => aggregateVisits db st' vs

/-- The aggregation phase of `Walker.build` (everything before the call to
`_filter_membership`). -/
def buildAggregate (db : IdDb) (top : String) (root : FsRoot) : Except String WalkerState :=
  aggregateVisits db initState (buildVisits top root)

/-- Filter step 1: the purge loop over `list(self._by_user.keys())`,
deleting every user record owning no files and no dirs. -/
def purgeUsers : List Nat → Table → Table
  | [], t => t
  | uid :: rest, t =>
    match dictFind t uid with
    | none => purgeUsers rest t
    | some rec =>
      if rec.files.length = 0 ∧ rec.dirs.length = 0 then
        purgeUsers rest (dictErase t uid)
      else
        purgeUsers rest t

/-- Filter step 2: recompute the primary-group set from the surviving
users, each via a fresh `pwd.getpwuid` (which can raise `KeyError`). -/
def recomputePgrps (db : IdDb) : List Nat → List Nat → Except String (List Nat)
  | [], acc => .ok acc
  | uid :: rest, acc =>
    match getpwuid db uid with
    | none => .error "KeyError: getpwuid"
    | some pwent => recomputePgrps db rest (setAdd acc pwent.pw_gid)

/-- Filter step 3 iterates `self._by_group` directly while deleting from
it.  This scan finds the first group meeting the deletion condition; in
CPython, deleting it makes the next iterator step raise `RuntimeError:
dictionary changed size during iteration`, so a `some` result aborts the
pass right after that single deletion. -/
def findDeadGroup (pgrps : List Nat) : List (Nat × Ownership) → Option Nat
  | [] => none
  | (gid, rec) :: rest =>
    if rec.files.length > 0 ∨ rec.dirs.length > 0 ∨ gid ∈ pgrps then
      findDeadGroup pgrps rest
    else
      some gid

/-- The inner loop of filter step 4: build the `keep` set from a group's
members, resolving each name with `pwd.getpwnam` (uncaught `KeyError` when
the name has no record) and keeping names whose uid is a surviving user. -/
def trimGroupMembers (db : IdDb) (ut : Table) (keep : List String) :
    List String → Except String (List String)
  | [] => .ok keep
  | mem :: rest =>
    match getpwnam db mem with
    | none => .error "KeyError: getpwnam"
    | some urec =>
      if (dictFind ut urec.pw_uid).isSome then
        trimGroupMembers db ut (setAdd keep mem) rest
      else
        trimGroupMembers db ut keep rest

/-- Filter step 4: over `list(self._by_group.keys())`, replace each
non-empty `members` set by its trimmed `keep` set. -/
def trimMembership (db : IdDb) (ut : Table) : List Nat → Table → Except String Table
  | [], gt => .ok gt
  | gid :: rest, gt =>
    match dictFind gt gid with
    | none => trimMembership db ut rest gt
    | some rec =>
      if rec.members.length = 0 then
        trimMembership db ut rest gt
      else
        match trimGroupMembers db ut [] rec.members with
        | .error e => .error e
        | .ok keep =>
          trimMembership db ut rest (dictModify gt gid (fun r => { r with members := keep }))

/-- `Walker._filter_membership`. -/
def filterMembership (db : IdDb) (st : WalkerState) : Except String WalkerState :=
  match recomputePgrps db (dictKeys (purgeUsers (dictKeys st.by_user) st.by_user)) [] with
  | .error e => .error e
  | .ok pgrps =>
    match findDeadGroup pgrps st.by_group with
    | some _ => .error "RuntimeError: dictionary changed size during iteration"
    | none =>
      match trimMembership db (purgeUsers (dictKeys st.by_user) st.by_user)
          (dictKeys st.by_group) st.by_group with
      | .error e => .error e
      | .ok byGroup =>
        .ok { by_user := purgeUsers (dictKeys st.by_user) st.by_user,
              by_group := byGroup, pgrps := pgrps }

/-- `Walker.build`: traversal plus membership filter. -/
def build (db : IdDb) (top : String) (root : FsRoot) : Except String WalkerState :=
  match buildAggregate db top root with
  | .error e => .error e
  | .ok st => filterMembership db st

/-- `sorted(list(d.keys()))`. -/
def sortedKeys (t : Table) : List Nat :=
  (dictKeys t).insertionSort (· ≤ ·)

/-- One line of the passwd artifact: `f"{rec.name}:*:{rec.id}:{rec.pgrp}:::\n"`,
looked up by uid (the key is always present, since it comes from the same
dict; the `none` branch is unreachable). -/
def passwdLineFor (t : Table) (uid : Nat) : String :=
  match dictFind t uid with
  | some rec => rec.name ++ ":*:" ++ toString rec.id ++ ":" ++ toString rec.pgrp ++ ":::\n"
  | none => ""

/-- The passwd artifact built by `Walker.report`. -/
def passwdText (st : WalkerState) : String :=
  ((sortedKeys st.by_user).map (passwdLineFor st.by_user)).foldl (· ++ ·) ""

/-- The iteration order `",".join(rec.members)` observes on a group's
member set.  A Python `set[str]` iterates in an order determined by string
hashes, which are randomized per process, so the order is a run parameter:
any permutation of the set may be observed by a given run. -/
abbrev MemOrder := Nat → List String → List String

/-- A member order reproducing the model's insertion order. -/
def insertionOrder : MemOrder := fun _ ms => ms

/-- One line of the group artifact:
`f"{rec.name}:*:{rec.id}:{mem_name_str}\n"`. -/
def groupLineFor (ord : MemOrder) (t : Table) (gid : Nat) : String :=
  match dictFind t gid with
  | some rec =>
    rec.name ++ ":*:" ++ toString rec.id ++ ":"
      ++ String.intercalate "," (ord gid rec.members) ++ "\n"
  | none => ""

/-- The group artifact built by `Walker.report`, under a given member
iteration order. -/
def groupTextWith (ord : MemOrder) (st : WalkerState) : String :=
  ((sortedKeys st.by_group).map (groupLineFor ord st.by_group)).foldl (· ++ ·) ""

/-- The group artifact under the model's insertion order. -/
def groupText (st : WalkerState) : String :=
  groupTextWith insertionOrder st

/-- The whole pipeline (`main`): build, filter, and the two artifact texts,
under a given member iteration order. -/
def runPipelineWith (ord : MemOrder) (db : IdDb) (top : String) (root : FsRoot) :
    Except String (String × String) :=
  match build db top root with
  | .error e => .error e
  | .ok st => .ok (passwdText st, groupTextWith ord st)

/-- The pipeline under the model's insertion order. -/
def runPipeline (db : IdDb) (top : String) (root : FsRoot) :
    Except String (String × String) :=
  runPipelineWith insertionOrder db top root

/-- The file writes attempted by `Walker.report`, in program order:
`./passwd` first, then `./group`. -/
def reportWrites (st : WalkerState) : List (String × String) :=
  [("passwd", passwdText st), ("group", groupText st)]

/-- A whole run of `main`, with `budget` modeling the filesystem: `some k`
means the k-th artifact write raises `OSError` (the first `k` succeed),
`none` means all writes succeed.  Returns the process outcome and the list
of artifacts actually written on disk afterwards. -/
def runMain (db : IdDb) (top : String) (root : FsRoot) (budget : Option Nat) :
    Except String Unit × List (String × String) :=
  match build db top root with
  | .error e => (.error e, [])
  | .ok st =>
    let ws := reportWrites st
    match budget with
    | none => (.ok (), ws)
    | some k =>
      if ws.length ≤ k then (.ok (), ws)
      else (.error "OSError: write failed", ws.take k)

/-- A well-formed dict: keys are unique (as in a Python dict) and each
stored record's `id` field equals its key, as the Walker maintains. -/
def TableWF (t : Table) : Prop :=
  (dictKeys t).Nodup ∧ ∀ k r, dictFind t k = some r → r.id = k

/-- Both tables of a state are well-formed. -/
def StateWF (st : WalkerState) : Prop :=
  TableWF st.by_user ∧ TableWF st.by_group

/-- Invariant maintained by aggregation against a fixed identity database:
every user record owns at least one path, and every group record either
owns a path or is, per the database, the primary group of some user present
in the user table. -/
def AggInv (db : IdDb) (st : WalkerState) : Prop :=
  (∀ k r, dictFind st.by_user k = some r → r.files ≠ [] ∨ r.dirs ≠ []) ∧
  (∀ k r, dictFind st.by_group k = some r →
    r.files ≠ [] ∨ r.dirs ≠ [] ∨
    ∃ j u, (dictFind st.by_user j).isSome ∧ getpwuid db j = some u ∧ u.pw_gid = k)

/-- Every path stored in the table satisfies `P`. -/
def TablePathsProp (t : Table) (P : String → Prop) : Prop :=
  ∀ k r, dictFind t k = some r → (∀ x ∈ r.files, P x) ∧ (∀ x ∈ r.dirs, P x)

/-- Every path stored in either table of the state satisfies `P`. -/
def StatePathsProp (st : WalkerState) (P : String → Prop) : Prop :=
  TablePathsProp st.by_user P ∧ TablePathsProp st.by_group P

/-! Concrete fixtures used by counterexamples and witnesses. -/

/-- Identity database whose group `staff` has the unresolvable roster
member `zed`; the scanned file is owned by `alice` with owning gid 99
distinct from her primary gid 20, so the roster is seeded. -/
def dbC1 : IdDb :=
  { users := [⟨"alice", 1000, 20, ""⟩],
    groups := [⟨"staff", 20, ["alice", "zed"]⟩, ⟨"g99", 99, []⟩] }

/-- A root directory holding one file owned by uid 1000, gid 99. -/
def fsC1 : FsRoot := .present [.file "f" (some ⟨1000, 99⟩)]

/-- Identity database for the symlink scenario. -/
def dbC2 : IdDb :=
  { users := [⟨"alice", 1000, 20, ""⟩], groups := [⟨"staff", 20, []⟩] }

/-- A root directory holding a single symbolic link whose target exists and
is owned by uid 1000, gid 20. -/
def fsC2 : FsRoot := .present [.symlink "lnk" (some ⟨1000, 20⟩)]

/-- Identity database in which the name `zed` has no passwd record. -/
def dbC4 : IdDb :=
  { users := [⟨"alice", 1000, 20, ""⟩], groups := [⟨"staff", 20, ["zed"]⟩] }

/-- An aggregated state whose only group is `alice`'s primary group with
the unresolvable member `zed` in its roster. -/
def stC4 : WalkerState :=
  { by_user := [(1000, ⟨"alice", 1000, 20, "", ["/t/f"], [], []⟩)],
    by_group := [(20, ⟨"staff", 20, 20, "", [], [], ["zed"]⟩)],
    pgrps := [20] }

/-- Identity database where `carol`'s primary group 30 equals the owning
gid of the scanned file and has a non-empty roster. -/
def dbC5 : IdDb :=
  { users := [⟨"carol", 1002, 30, ""⟩], groups := [⟨"team", 30, ["carol", "dave"]⟩] }

/-- Identity database where `dora`'s primary group 40 differs from the
owning gid 41 of the scanned file. -/
def dbC5b : IdDb :=
  { users := [⟨"dora", 1003, 40, ""⟩],
    groups := [⟨"g41", 41, []⟩, ⟨"team40", 40, ["dora", "eve"]⟩] }

/-- Identity database with two file-owning users who share primary group
20, whose roster lists both of them. -/
def dbC6 : IdDb :=
  { users := [⟨"alice", 1000, 20, ""⟩, ⟨"bob", 1001, 20, ""⟩],
    groups := [⟨"staff", 20, ["alice", "bob"]⟩, ⟨"g99", 99, []⟩] }

/-- Two files owned by the two users of `dbC6`, owning gid 99. -/
def fsC6 : FsRoot := .present [.file "a" (some ⟨1000, 99⟩), .file "b" (some ⟨1001, 99⟩)]

/-- A member iteration order reversing the model's insertion order (another
permutation of the same set, as another hash seed may produce). -/
def reverseOrder : MemOrder := fun _ ms => ms.reverse

/-- Singleton-user identity database used by witnesses. -/
def dbW : IdDb :=
  { users := [⟨"alice", 1000, 20, ""⟩], groups := [⟨"staff", 20, ["alice"]⟩] }

/-- A root with one file owned by uid 1000, gid 20. -/
def fsW : FsRoot := .present [.file "f" (some ⟨1000, 20⟩)]

/-- The aggregated (and also filtered) state of the `dbW`/`fsW` run. -/
def stW : WalkerState :=
  { by_user := [(1000, ⟨"alice", 1000, 20, "", ["/t/f"], [], []⟩)],
    by_group := [(20, ⟨"staff", 20, 20, "", ["/t/f"], [], []⟩)],
    pgrps := [20] }

/-! Theorems.  First, basic lemmas about the dict and set model. -/

theorem dictFind_insert (t : Table) (k : Nat) (v : Ownership) (j : Nat) :
    dictFind (dictInsert t k v) j = if j = k then some v else dictFind t j := by
  rcases eq_or_ne j k with rfl | hj
  · rw [if_pos rfl]
    induction t with
    | nil => simp [dictInsert, dictFind]
    | cons p t ih =>
      obtain ⟨pk, pv⟩ := p
      by_cases hk : pk = j
      · subst hk; simp [dictInsert, dictFind]
      · simp [dictInsert, dictFind, hk, ih]
  · rw [if_neg hj]
    have hj' : k ≠ j := Ne.symm hj
    induction t with
    | nil => simp [dictInsert, dictFind, hj']
    | cons p t ih =>
      obtain ⟨pk, pv⟩ := p
      by_cases hk : pk = k
      · subst hk
        simp [dictInsert, dictFind, hj']
      · by_cases hpj : pk = j
        · subst hpj
          simp [dictInsert, dictFind, hk]
        · simp [dictInsert, dictFind, hk, hpj, ih]

theorem dictErase_cons (p : Nat × Ownership) (t : Table) (k : Nat) :
    dictErase (p :: t) k = if p.1 = k then dictErase t k else p :: dictErase t k := by
  simp only [dictErase, List.filter_cons]
  by_cases h : p.1 = k <;> simp [h, bne_iff_ne]

theorem dictFind_erase (t : Table) (k j : Nat) :
    dictFind (dictErase t k) j = if j = k then none else dictFind t j := by
  rcases eq_or_ne j k with rfl | hj
  · rw [if_pos rfl]
    induction t with
    | nil => simp [dictErase, dictFind]
    | cons p t ih =>
      rw [dictErase_cons]
      by_cases hk : p.1 = j
      · rw [if_pos hk]
        exact ih
      · rw [if_neg hk]
        simpa [dictFind, hk] using ih
  · rw [if_neg hj]
    induction t with
    | nil => simp [dictErase, dictFind]
    | cons p t ih =>
      rw [dictErase_cons]
      by_cases hk : p.1 = k
      · rw [if_pos hk, ih]
        have hpj : ¬ p.1 = j := by rw [hk]; exact Ne.symm hj
        simp [dictFind, hpj]
      · rw [if_neg hk]
        by_cases hpj : p.1 = j
        · simp [dictFind, hpj]
        · simp [dictFind, hpj, ih]

theorem dictFind_modify (t : Table) (k : Nat) (f : Ownership → Ownership) (j : Nat) :
    dictFind (dictModify t k f) j
      = if j = k then (dictFind t k).map f else dictFind t j := by
  rcases eq_or_ne j k with rfl | hj
  · rw [if_pos rfl]
    induction t with
    | nil => simp [dictModify, dictFind]
    | cons p t ih =>
      obtain ⟨pk, pv⟩ := p
      by_cases hk : pk = j
      · subst hk; simp [dictModify, dictFind]
      · simp [dictModify, dictFind, hk, ih]
  · rw [if_neg hj]
    induction t with
    | nil => simp [dictModify, dictFind]
    | cons p t ih =>
      obtain ⟨pk, pv⟩ := p
      by_cases hk : pk = k
      · subst hk
        simp [dictModify, dictFind, Ne.symm hj]
      · by_cases hpj : pk = j
        · subst hpj
          simp [dictModify, dictFind, hk]
        · simp [dictModify, dictFind, hk, hpj, ih]

theorem dictFind_isSome_iff_mem (t : Table) (k : Nat) :
    (dictFind t k).isSome ↔ k ∈ dictKeys t := by
  induction t with
  | nil => simp [dictFind, dictKeys]
  | cons p t ih =>
    obtain ⟨pk, pv⟩ := p
    by_cases h : pk = k
    · subst h; simp [dictFind, dictKeys]
    · have h' : ¬ k = pk := fun hh => h hh.symm
      simp [dictFind, dictKeys, h, h', ih]

theorem dictFind_eq_none_iff (t : Table) (k : Nat) :
    dictFind t k = none ↔ k ∉ dictKeys t := by
  rw [← dictFind_isSome_iff_mem, Option.not_isSome_iff_eq_none]

theorem dictKeys_insert (t : Table) (k : Nat) (v : Ownership) :
    dictKeys (dictInsert t k v)
      = if (dictFind t k).isSome then dictKeys t else dictKeys t ++ [k] := by
  induction t with
  | nil => simp [dictInsert, dictFind, dictKeys]
  | cons p t ih =>
    obtain ⟨pk, pv⟩ := p
    by_cases hk : pk = k
    · subst hk; simp [dictInsert, dictFind, dictKeys]
    · have hk' : ¬ k = pk := fun hh => hk hh.symm
      simp only [dictInsert, if_neg hk, dictKeys, List.map_cons, dictFind, if_neg hk']
      rw [show dictKeys (dictInsert t k v) = List.map Prod.fst (dictInsert t k v) from rfl]
        at ih
      rw [ih]
      by_cases h2 : (dictFind t k).isSome <;> simp [h2, dictKeys]

theorem dictKeys_modify (t : Table) (k : Nat) (f : Ownership → Ownership) :
    dictKeys (dictModify t k f) = dictKeys t := by
  induction t with
  | nil => rfl
  | cons p t ih =>
    obtain ⟨pk, pv⟩ := p
    by_cases hk : pk = k
    · subst hk; simp [dictModify, dictKeys]
    · simp only [dictModify, if_neg hk, dictKeys, List.map_cons] at ih ⊢
      rw [ih]

theorem dictKeys_erase (t : Table) (k : Nat) :
    dictKeys (dictErase t k) = (dictKeys t).filter (fun j => j != k) := by
  induction t with
  | nil => rfl
  | cons p t ih =>
    obtain ⟨pk, pv⟩ := p
    simp only [dictErase, dictKeys, List.filter_cons, List.map_cons] at ih ⊢
    by_cases hk : (pk != k) = true
    · rw [hk]
      simp only [if_true, List.map_cons]
      rw [ih]
    · simp only [Bool.not_eq_true] at hk
      rw [hk]
      simp only [Bool.false_eq_true, if_false]
      rw [ih]

theorem dictKeys_insert_nodup (t : Table) (k : Nat) (v : Ownership)
    (h : (dictKeys t).Nodup) : (dictKeys (dictInsert t k v)).Nodup := by
  rw [dictKeys_insert]
  by_cases h2 : (dictFind t k).isSome
  · rw [if_pos h2]; exact h
  · rw [if_neg h2, List.nodup_append]
    refine ⟨h, List.nodup_singleton k, ?_⟩
    intro a ha hak
    rw [List.mem_singleton] at hak
    subst hak
    rw [← dictFind_isSome_iff_mem] at ha
    exact h2 ha

theorem dictKeys_erase_nodup (t : Table) (k : Nat)
    (h : (dictKeys t).Nodup) : (dictKeys (dictErase t k)).Nodup := by
  rw [dictKeys_erase]
  exact h.filter _

theorem insertUser_by_group (st : WalkerState) (uid : Nat) (urec : Ownership) :
    (insertUser st uid urec).by_group = st.by_group := by
  unfold insertUser
  split <;> rfl

theorem insertUser_pgrps (st : WalkerState) (uid : Nat) (urec : Ownership) :
    (insertUser st uid urec).pgrps = st.pgrps := by
  unfold insertUser
  split <;> rfl

theorem insertGroup_by_user (st : WalkerState) (gid : Nat) (grec : Ownership) :
    (insertGroup st gid grec).by_user = st.by_user := by
  unfold insertGroup
  split <;> rfl

theorem insertGroup_pgrps (st : WalkerState) (gid : Nat) (grec : Ownership) :
    (insertGroup st gid grec).pgrps = st.pgrps := by
  unfold insertGroup
  split <;> rfl

theorem insertGroup_find (st : WalkerState) (gid : Nat) (grec : Ownership) (j : Nat) :
    dictFind (insertGroup st gid grec).by_group j
      = if j = gid then some ((dictFind st.by_group gid).getD grec)
        else dictFind st.by_group j := by
  unfold insertGroup
  cases hf : dictFind st.by_group gid with
  | some r =>
    simp only [hf, Option.isSome_some, if_true, Option.getD_some]
    by_cases hj : j = gid
    · rw [if_pos hj, hj, hf]
    · rw [if_neg hj]
  | none =>
    simp only [hf, Option.isSome_none, Bool.false_eq_true, if_false, Option.getD_none]
    exact dictFind_insert st.by_group gid grec j

theorem insertUser_find (st : WalkerState) (uid : Nat) (urec : Ownership) (j : Nat) :
    dictFind (insertUser st uid urec).by_user j
      = if j = uid then some ((dictFind st.by_user uid).getD urec)
        else dictFind st.by_user j := by
  unfold insertUser
  cases hf : dictFind st.by_user uid with
  | some r =>
    simp only [hf, Option.isSome_some, if_true, Option.getD_some]
    by_cases hj : j = uid
    · rw [if_pos hj, hj, hf]
    · rw [if_neg hj]
  | none =>
    simp only [hf, Option.isSome_none, Bool.false_eq_true, if_false, Option.getD_none]
    exact dictFind_insert st.by_user uid urec j

theorem appendFn_members (item : String) (ty : FObj) (r : Ownership) :
    (appendFn item ty r).members = r.members := by
  cases ty <;> rfl

theorem appendFn_id (item : String) (ty : FObj) (r : Ownership) :
    (appendFn item ty r).id = r.id := by
  cases ty <;> rfl

theorem appendFn_owns (item : String) (ty : FObj) (r : Ownership) :
    (appendFn item ty r).files ≠ [] ∨ (appendFn item ty r).dirs ≠ [] := by
  cases ty with
  | FILE =>
    left
    simp [appendFn]
  | DIR =>
    right
    simp [appendFn]

theorem appendItem_group_members (st : WalkerState) (uid gid : Nat) (item : String)
    (ty : FObj) (j : Nat) :
    (dictFind (appendItem st uid gid item ty).by_group j).map Ownership.members
      = (dictFind st.by_group j).map Ownership.members := by
  simp only [appendItem]
  rw [dictFind_modify]
  by_cases hj : j = gid
  · rw [if_pos hj, hj]
    cases hf : dictFind st.by_group gid <;> simp [hf, appendFn_members]
  · rw [if_neg hj]

theorem addThing_some_eq (db : IdDb) (st : WalkerState) (item : String) (ty : FObj)
    (s : Stat) (pwent : PwEnt) (gent : GrEnt)
    (hu : getpwuid db s.st_uid = some pwent)
    (hg : getgrgid db s.st_gid = some gent) :
    addThing db st item ty (some s) = addThingResolved db st item ty s pwent gent := by
  simp [addThing, hu, hg]

theorem filterMembership_ok (db : IdDb) (st st' : WalkerState)
    (h : filterMembership db st = .ok st') :
    ∃ pgrps byGroup,
      recomputePgrps db (dictKeys (purgeUsers (dictKeys st.by_user) st.by_user)) []
          = .ok pgrps ∧
      findDeadGroup pgrps st.by_group = none ∧
      trimMembership db (purgeUsers (dictKeys st.by_user) st.by_user)
          (dictKeys st.by_group) st.by_group = .ok byGroup ∧
      st' = { by_user := purgeUsers (dictKeys st.by_user) st.by_user,
              by_group := byGroup, pgrps := pgrps } := by
  unfold filterMembership at h
  split at h
  next e heq => cases h
  next pgrps heq =>
    split at h
    next g heq2 => cases h
    next heq2 =>
      split at h
      next e heq3 => cases h
      next byGroup heq3 =>
        cases h
        exact ⟨pgrps, byGroup, heq, heq2, heq3, rfl⟩

theorem purgeUsers_cons_none (k : Nat) (ks : List Nat) (t : Table)
    (hf : dictFind t k = none) : purgeUsers (k :: ks) t = purgeUsers ks t := by
  simp only [purgeUsers, hf]

theorem purgeUsers_cons_some (k : Nat) (ks : List Nat) (t : Table) (rec0 : Ownership)
    (hf : dictFind t k = some rec0) :
    purgeUsers (k :: ks) t =
      if rec0.files.length = 0 ∧ rec0.dirs.length = 0 then purgeUsers ks (dictErase t k)
      else purgeUsers ks t := by
  simp only [purgeUsers, hf]

theorem purgeUsers_owns (ks : List Nat) (t : Table) (uid : Nat) (rec : Ownership)
    (h0 : ∀ k r, dictFind t k = some r → k ∈ ks ∨ (r.files ≠ [] ∨ r.dirs ≠ []))
    (h : dictFind (purgeUsers ks t) uid = some rec) :
    rec.files ≠ [] ∨ rec.dirs ≠ [] := by
  induction ks generalizing t with
  | nil =>
    simp only [purgeUsers] at h
    rcases h0 uid rec h with h1 | h1
    · exact absurd h1 (List.not_mem_nil uid)
    · exact h1
  | cons k ks ih =>
    cases hf : dictFind t k with
    | none =>
      rw [purgeUsers_cons_none k ks t hf] at h
      refine ih t ?_ h
      intro j r hj
      rcases h0 j r hj with h1 | h1
      · rcases List.mem_cons.mp h1 with rfl | h2
        · rw [hf] at hj; cases hj
        · exact Or.inl h2
      · exact Or.inr h1
    | some rec0 =>
      rw [purgeUsers_cons_some k ks t rec0 hf] at h
      by_cases hc : rec0.files.length = 0 ∧ rec0.dirs.length = 0
      · rw [if_pos hc] at h
        refine ih (dictErase t k) ?_ h
        intro j r hj
        rw [dictFind_erase] at hj
        by_cases hjk : j = k
        · rw [if_pos hjk] at hj; cases hj
        · rw [if_neg hjk] at hj
          rcases h0 j r hj with h1 | h1
          · rcases List.mem_cons.mp h1 with rfl | h2
            · exact absurd rfl hjk
            · exact Or.inl h2
          · exact Or.inr h1
      · rw [if_neg hc] at h
        refine ih t ?_ h
        intro j r hj
        by_cases hjk : j = k
        · subst hjk
          rw [hf] at hj
          obtain rfl : rec0 = r := by cases hj; rfl
          right
          rcases not_and_or.mp hc with h1 | h1
          · exact Or.inl (fun he => h1 (by rw [he]; rfl))
          · exact Or.inr (fun he => h1 (by rw [he]; rfl))
        · rcases h0 j r hj with h1 | h1
          · rcases List.mem_cons.mp h1 with rfl | h2
            · exact absurd rfl hjk
            · exact Or.inl h2
          · exact Or.inr h1

theorem childPath_length (p n : String) :
    (childPath p n).length = p.length + 1 + n.length := by
  have h1 : ("/" : String).length = 1 := rfl
  simp only [childPath, String.length_append, h1]

theorem tripleVisits_path_longer (p : String) (cs : List FsNode) (v : Visit)
    (hv : v ∈ tripleVisits p cs) : p.length < v.1.length := by
  unfold tripleVisits at hv
  rcases List.mem_append.mp hv with h | h <;>
  · obtain ⟨c, hc, rfl⟩ := List.mem_map.mp h
    have := childPath_length p c.name
    simp only [this]
    omega

mutual

theorem nodeSubVisits_longer (p : String) :
    (n : FsNode) → ∀ v ∈ nodeSubVisits p n, p.length < v.1.length
  | .file nm s => by simp [nodeSubVisits]
  | .symlink nm s => by simp [nodeSubVisits]
  | .special nm s => by simp [nodeSubVisits]
  | .dir nm s cs => by
    intro v hv
    simp only [nodeSubVisits] at hv
    have hlen := childPath_length p nm
    rcases List.mem_append.mp hv with h | h
    · have := listSubVisits_longer (childPath p nm) cs v h
      omega
    · have := tripleVisits_path_longer (childPath p nm) cs v h
      omega

theorem listSubVisits_longer (p : String) :
    (cs : List FsNode) → ∀ v ∈ listSubVisits p cs, p.length < v.1.length
  | [] => by simp [listSubVisits]
  | c :: cs => by
    intro v hv
    simp only [listSubVisits] at hv
    rcases List.mem_append.mp hv with h | h
    · exact nodeSubVisits_longer p c v h
    · exact listSubVisits_longer p cs v h

end

theorem walkVisits_path_ne_top (top : String) (cs : List FsNode) (v : Visit)
    (hv : v ∈ walkVisits top cs) : v.1 ≠ top := by
  have hlt : top.length < v.1.length := by
    unfold walkVisits at hv
    rcases List.mem_append.mp hv with h | h
    · exact listSubVisits_longer top cs v h
    · exact tripleVisits_path_longer top cs v h
  intro he
  rw [he] at hlt
  omega

theorem statePathsProp_pgrps (st : WalkerState) (P : String → Prop) (x : List Nat)
    (h : StatePathsProp st P) : StatePathsProp { st with pgrps := x } P := h

theorem statePathsProp_insertUser (st : WalkerState) (P : String → Prop)
    (uid : Nat) (urec : Ownership) (h : StatePathsProp st P)
    (hf : urec.files = []) (hd : urec.dirs = []) :
    StatePathsProp (insertUser st uid urec) P := by
  constructor
  · intro j r hj
    rw [insertUser_find] at hj
    by_cases hjk : j = uid
    · rw [if_pos hjk] at hj
      cases hfind : dictFind st.by_user uid with
      | some r0 =>
        rw [hfind, Option.getD_some] at hj
        cases hj
        exact h.1 uid _ hfind
      | none =>
        rw [hfind, Option.getD_none] at hj
        cases hj
        constructor <;> intro x hx
        · rw [hf] at hx
          cases hx
        · rw [hd] at hx
          cases hx
    · rw [if_neg hjk] at hj
      exact h.1 j r hj
  · intro j r hj
    rw [insertUser_by_group] at hj
    exact h.2 j r hj

theorem statePathsProp_insertGroup (st : WalkerState) (P : String → Prop)
    (gid : Nat) (grec : Ownership) (h : StatePathsProp st P)
    (hf : grec.files = []) (hd : grec.dirs = []) :
    StatePathsProp (insertGroup st gid grec) P := by
  constructor
  · intro j r hj
    rw [insertGroup_by_user] at hj
    exact h.1 j r hj
  · intro j r hj
    rw [insertGroup_find] at hj
    by_cases hjk : j = gid
    · rw [if_pos hjk] at hj
      cases hfind : dictFind st.by_group gid with
      | some r0 =>
        rw [hfind, Option.getD_some] at hj
        cases hj
        exact h.2 gid _ hfind
      | none =>
        rw [hfind, Option.getD_none] at hj
        cases hj
        constructor <;> intro x hx
        · rw [hf] at hx
          cases hx
        · rw [hd] at hx
          cases hx
    · rw [if_neg hjk] at hj
      exact h.2 j r hj

theorem tablePathsProp_append (t : Table) (P : String → Prop) (k : Nat) (item : String)
    (h : TablePathsProp t P) (hitem : P item) (ty : FObj) :
    TablePathsProp (dictModify t k (appendFn item ty)) P := by
  intro j r hj
  rw [dictFind_modify] at hj
  by_cases hjk : j = k
  · rw [if_pos hjk] at hj
    cases hfind : dictFind t k with
    | some r0 =>
      rw [hfind, Option.map_some'] at hj
      obtain ⟨hr1, hr2⟩ := h k r0 hfind
      cases ty with
      | FILE =>
        cases hj
        refine ⟨?_, hr2⟩
        intro x hx
        rcases List.mem_append.mp hx with hx | hx
        · exact hr1 x hx
        · rw [List.mem_singleton] at hx
          rw [hx]
          exact hitem
      | DIR =>
        cases hj
        refine ⟨hr1, ?_⟩
        intro x hx
        rcases List.mem_append.mp hx with hx | hx
        · exact hr2 x hx
        · rw [List.mem_singleton] at hx
          rw [hx]
          exact hitem
    | none =>
      rw [hfind] at hj
      cases hj
  · rw [if_neg hjk] at hj
    exact h j r hj

theorem statePathsProp_appendItem (st : WalkerState) (P : String → Prop)
    (uid gid : Nat) (item : String) (ty : FObj)
    (h : StatePathsProp st P) (hitem : P item) :
    StatePathsProp (appendItem st uid gid item ty) P :=
  ⟨tablePathsProp_append st.by_user P uid item h.1 hitem ty,
   tablePathsProp_append st.by_group P gid item h.2 hitem ty⟩

theorem addThing_paths (db : IdDb) (st : WalkerState) (item : String) (ty : FObj)
    (stat : Option Stat) (st' : WalkerState) (P : String → Prop)
    (h0 : StatePathsProp st P) (hitem : P item)
    (h : addThing db st item ty stat = .ok st') : StatePathsProp st' P := by
  cases stat with
  | none =>
    simp only [addThing] at h
    cases h
    exact h0
  | some s =>
    simp only [addThing] at h
    split at h
    next heq1 => cases h
    next pwent heq1 =>
      split at h
      next heq2 => cases h
      next gent heq2 =>
        simp only [addThingResolved] at h
        have h3 : StatePathsProp
            (insertGroup
              (insertUser { st with pgrps := setAdd st.pgrps pwent.pw_gid }
                s.st_uid (mkUserRec s.st_uid pwent))
              s.st_gid (mkGroupRec s.st_gid gent)) P :=
          statePathsProp_insertGroup _ P _ _
            (statePathsProp_insertUser _ P _ _ h0 rfl rfl) rfl rfl
        split at h
        · cases h
          exact statePathsProp_appendItem _ P _ _ _ _ h3 hitem
        · split at h
          · cases h
          · cases h
            refine statePathsProp_appendItem _ P _ _ _ _ ⟨h3.1, ?_⟩ hitem
            intro j r hj
            rw [dictFind_insert] at hj
            by_cases hjk : j = pwent.pw_gid
            · rw [if_pos hjk] at hj
              cases hj
              exact ⟨(by intro x hx; cases hx), (by intro x hx; cases hx)⟩
            · rw [if_neg hjk] at hj
              exact h3.2 j r hj

theorem aggregateVisits_paths (db : IdDb) (visits : List Visit) (st st' : WalkerState)
    (P : String → Prop) (h0 : StatePathsProp st P)
    (hv : ∀ v ∈ visits, P v.1)
    (h : aggregateVisits db st visits = .ok st') : StatePathsProp st' P := by
  induction visits generalizing st with
  | nil =>
    simp only [aggregateVisits] at h
    cases h
    exact h0
  | cons v vs ih =>
    simp only [aggregateVisits] at h
    split at h
    · cases h
    · next st1 heq =>
      exact ih st1
        (addThing_paths db st v.1 v.2.1 v.2.2 st1 P h0 (hv v (List.mem_cons_self v vs)) heq)
        (fun w hw => hv w (List.mem_cons_of_mem v hw)) h

theorem tableWF_insert (t : Table) (k : Nat) (v : Ownership)
    (h : TableWF t) (hv : v.id = k) : TableWF (dictInsert t k v) := by
  constructor
  · exact dictKeys_insert_nodup t k v h.1
  · intro j r hj
    rw [dictFind_insert] at hj
    by_cases hjk : j = k
    · rw [if_pos hjk] at hj
      cases hj
      rw [hv, hjk]
    · rw [if_neg hjk] at hj
      exact h.2 j r hj

theorem tableWF_erase (t : Table) (k : Nat) (h : TableWF t) : TableWF (dictErase t k) := by
  constructor
  · exact dictKeys_erase_nodup t k h.1
  · intro j r hj
    rw [dictFind_erase] at hj
    by_cases hjk : j = k
    · rw [if_pos hjk] at hj
      cases hj
    · rw [if_neg hjk] at hj
      exact h.2 j r hj

theorem tableWF_modify (t : Table) (k : Nat) (f : Ownership → Ownership)
    (h : TableWF t) (hf : ∀ r, (f r).id = r.id) : TableWF (dictModify t k f) := by
  constructor
  · rw [dictKeys_modify]
    exact h.1
  · intro j r hj
    rw [dictFind_modify] at hj
    by_cases hjk : j = k
    · rw [if_pos hjk] at hj
      cases hfind : dictFind t k with
      | some r0 =>
        rw [hfind, Option.map_some'] at hj
        cases hj
        rw [hf r0, h.2 k r0 hfind, hjk]
      | none =>
        rw [hfind] at hj
        cases hj
    · rw [if_neg hjk] at hj
      exact h.2 j r hj

theorem stateWF_insertUser (st : WalkerState) (uid : Nat) (urec : Ownership)
    (h : StateWF st) (hid : urec.id = uid) : StateWF (insertUser st uid urec) := by
  constructor
  · unfold insertUser
    split
    · exact h.1
    · exact tableWF_insert st.by_user uid urec h.1 hid
  · rw [show (insertUser st uid urec).by_group = st.by_group from insertUser_by_group st uid urec]
    exact h.2

theorem stateWF_insertGroup (st : WalkerState) (gid : Nat) (grec : Ownership)
    (h : StateWF st) (hid : grec.id = gid) : StateWF (insertGroup st gid grec) := by
  constructor
  · rw [show (insertGroup st gid grec).by_user = st.by_user from insertGroup_by_user st gid grec]
    exact h.1
  · unfold insertGroup
    split
    · exact h.2
    · exact tableWF_insert st.by_group gid grec h.2 hid

theorem stateWF_appendItem (st : WalkerState) (uid gid : Nat) (item : String)
    (ty : FObj) (h : StateWF st) : StateWF (appendItem st uid gid item ty) :=
  ⟨tableWF_modify st.by_user uid _ h.1 (appendFn_id item ty),
   tableWF_modify st.by_group gid _ h.2 (appendFn_id item ty)⟩

theorem addThing_wf (db : IdDb) (st : WalkerState) (item : String) (ty : FObj)
    (stat : Option Stat) (st' : WalkerState)
    (h0 : StateWF st) (h : addThing db st item ty stat = .ok st') : StateWF st' := by
  cases stat with
  | none =>
    simp only [addThing] at h
    cases h
    exact h0
  | some s =>
    simp only [addThing] at h
    split at h
    next heq1 => cases h
    next pwent heq1 =>
      split at h
      next heq2 => cases h
      next gent heq2 =>
        simp only [addThingResolved] at h
        have h3 : StateWF
            (insertGroup
              (insertUser { st with pgrps := setAdd st.pgrps pwent.pw_gid }
                s.st_uid (mkUserRec s.st_uid pwent))
              s.st_gid (mkGroupRec s.st_gid gent)) :=
          stateWF_insertGroup _ _ _ (stateWF_insertUser _ _ _ h0 rfl) rfl
        split at h
        · cases h
          exact stateWF_appendItem _ _ _ _ _ h3
        · split at h
          · cases h
          · cases h
            refine stateWF_appendItem _ _ _ _ _ ⟨h3.1, ?_⟩
            exact tableWF_insert _ _ _ h3.2 rfl

theorem aggregateVisits_wf (db : IdDb) (visits : List Visit) (st st' : WalkerState)
    (h0 : StateWF st) (h : aggregateVisits db st visits = .ok st') : StateWF st' := by
  induction visits generalizing st with
  | nil =>
    simp only [aggregateVisits] at h
    cases h
    exact h0
  | cons v vs ih =>
    simp only [aggregateVisits] at h
    split at h
    · cases h
    · next st1 heq =>
      exact ih st1 (addThing_wf db st v.1 v.2.1 v.2.2 st1 h0 heq) h

theorem purgeUsers_wf (ks : List Nat) (t : Table) (h : TableWF t) :
    TableWF (purgeUsers ks t) := by
  induction ks generalizing t with
  | nil => exact h
  | cons k ks ih =>
    cases hf : dictFind t k with
    | none =>
      rw [purgeUsers_cons_none k ks t hf]
      exact ih t h
    | some rec0 =>
      rw [purgeUsers_cons_some k ks t rec0 hf]
      by_cases hc : rec0.files.length = 0 ∧ rec0.dirs.length = 0
      · rw [if_pos hc]
        exact ih (dictErase t k) (tableWF_erase t k h)
      · rw [if_neg hc]
        exact ih t h

theorem trimMembership_wf (db : IdDb) (ut : Table) (ks : List Nat) (gt gt' : Table)
    (h : TableWF gt) (htr : trimMembership db ut ks gt = .ok gt') : TableWF gt' := by
  induction ks generalizing gt with
  | nil =>
    simp only [trimMembership] at htr
    cases htr
    exact h
  | cons k ks ih =>
    simp only [trimMembership] at htr
    split at htr
    · exact ih gt h htr
    · split at htr
      · exact ih gt h htr
      · split at htr
        · cases htr
        · next keep heq =>
          exact ih (dictModify gt k (fun r => { r with members := keep }))
            (tableWF_modify gt k (fun r => { r with members := keep }) h (fun r => rfl)) htr

theorem build_wf (db : IdDb) (top : String) (root : FsRoot) (st : WalkerState)
    (h : build db top root = .ok st) : StateWF st := by
  unfold build at h
  split at h
  next => cases h
  next st0 heq =>
    have h0 : StateWF st0 :=
      aggregateVisits_wf db (buildVisits top root) initState st0
        ⟨⟨List.nodup_nil, fun k r hk => Option.noConfusion hk⟩,
         ⟨List.nodup_nil, fun k r hk => Option.noConfusion hk⟩⟩ heq
    obtain ⟨pgrps, byGroup, h1, h2, h3, h4⟩ := filterMembership_ok db st0 st h
    rw [h4]
    exact ⟨purgeUsers_wf (dictKeys st0.by_user) st0.by_user h0.1,
      trimMembership_wf db _ (dictKeys st0.by_group) st0.by_group byGroup h0.2 h3⟩

theorem sortedKeys_perm (t : Table) : (sortedKeys t).Perm (dictKeys t) :=
  List.perm_insertionSort (· ≤ ·) (dictKeys t)

theorem mem_sortedKeys (t : Table) (k : Nat) : k ∈ sortedKeys t ↔ k ∈ dictKeys t :=
  (sortedKeys_perm t).mem_iff

theorem sortedKeys_pairwise_lt (t : Table) (h : (dictKeys t).Nodup) :
    (sortedKeys t).Pairwise (· < ·) := by
  have hs : (sortedKeys t).Sorted (· ≤ ·) :=
    List.sorted_insertionSort (· ≤ ·) (dictKeys t)
  have hn : (sortedKeys t).Nodup := ((sortedKeys_perm t).nodup_iff).mpr h
  exact (List.Pairwise.and hs hn).imp (fun hab => lt_of_le_of_ne hab.1 hab.2)

theorem addThing_agginv (db : IdDb) (st : WalkerState) (item : String) (ty : FObj)
    (stat : Option Stat) (st' : WalkerState)
    (h0 : AggInv db st) (h : addThing db st item ty stat = .ok st') : AggInv db st' := by
  cases stat with
  | none =>
    simp only [addThing] at h
    cases h
    exact h0
  | some s =>
    simp only [addThing] at h
    split at h
    next heq1 => cases h
    next pwent heq1 =>
      split at h
      next heq2 => cases h
      next gent heq2 =>
        simp only [addThingResolved] at h
        set st3 := insertGroup
            (insertUser { st with pgrps := setAdd st.pgrps pwent.pw_gid }
              s.st_uid (mkUserRec s.st_uid pwent))
            s.st_gid (mkGroupRec s.st_gid gent) with hst3
        have F1 : ∀ j, dictFind st3.by_user j
            = if j = s.st_uid
              then some ((dictFind st.by_user s.st_uid).getD (mkUserRec s.st_uid pwent))
              else dictFind st.by_user j := by
          intro j
          rw [hst3, insertGroup_by_user, insertUser_find]
        have F2 : ∀ j, dictFind st3.by_group j
            = if j = s.st_gid
              then some ((dictFind st.by_group s.st_gid).getD (mkGroupRec s.st_gid gent))
              else dictFind st.by_group j := by
          intro j
          rw [hst3, insertGroup_find, insertUser_by_group]
        have hUser : ∀ j r',
            dictFind (dictModify st3.by_user s.st_uid (appendFn item ty)) j = some r' →
            r'.files ≠ [] ∨ r'.dirs ≠ [] := by
          intro j r' hj
          rw [dictFind_modify] at hj
          by_cases hju : j = s.st_uid
          · rw [if_pos hju, F1, if_pos rfl, Option.map_some'] at hj
            cases hj
            exact appendFn_owns item ty _
          · rw [if_neg hju, F1, if_neg hju] at hj
            exact h0.1 j r' hj
        have hMono : ∀ j, (dictFind st.by_user j).isSome →
            (dictFind (dictModify st3.by_user s.st_uid (appendFn item ty)) j).isSome := by
          intro j hj
          rw [dictFind_modify]
          by_cases hju : j = s.st_uid
          · rw [if_pos hju, F1, if_pos rfl, Option.map_some']
            rfl
          · rw [if_neg hju, F1, if_neg hju]
            exact hj
        have hUidSome :
            (dictFind (dictModify st3.by_user s.st_uid (appendFn item ty)) s.st_uid).isSome := by
          rw [dictFind_modify, if_pos rfl, F1, if_pos rfl, Option.map_some']
          rfl
        split at h
        next hcond =>
          cases h
          constructor
          · intro k r' hk
            exact hUser k r' hk
          · intro k r' hk
            have hk' : dictFind (dictModify st3.by_group s.st_gid (appendFn item ty)) k
                = some r' := hk
            rw [dictFind_modify] at hk'
            by_cases hkg : k = s.st_gid
            · rw [if_pos hkg, F2, if_pos rfl, Option.map_some'] at hk'
              cases hk'
              rcases appendFn_owns item ty _ with ho | ho
              · exact Or.inl ho
              · exact Or.inr (Or.inl ho)
            · rw [if_neg hkg, F2, if_neg hkg] at hk'
              rcases h0.2 k r' hk' with ho | ho | ⟨j, u, hjs, hju, hgid⟩
              · exact Or.inl ho
              · exact Or.inr (Or.inl ho)
              · exact Or.inr (Or.inr ⟨j, u, hMono j hjs, hju, hgid⟩)
        next hcond =>
          split at h
          next => cases h
          next grpdef heq3 =>
            cases h
            have hne : ¬ s.st_gid = pwent.pw_gid := by
              intro hh
              apply hcond
              rw [F2, if_pos hh.symm, hh]
              rfl
            constructor
            · intro k r' hk
              exact hUser k r' hk
            · intro k r' hk
              have hk' : dictFind (dictModify
                  (dictInsert st3.by_group pwent.pw_gid (mkPrimaryGroupRec pwent.pw_gid grpdef))
                  s.st_gid (appendFn item ty)) k = some r' := hk
              rw [dictFind_modify] at hk'
              by_cases hkg : k = s.st_gid
              · rw [if_pos hkg, dictFind_insert, if_neg hne, F2, if_pos rfl,
                  Option.map_some'] at hk'
                cases hk'
                rcases appendFn_owns item ty _ with ho | ho
                · exact Or.inl ho
                · exact Or.inr (Or.inl ho)
              · rw [if_neg hkg, dictFind_insert] at hk'
                by_cases hkp : k = pwent.pw_gid
                · rw [if_pos hkp] at hk'
                  cases hk'
                  exact Or.inr (Or.inr ⟨s.st_uid, pwent, hUidSome, heq1, hkp.symm⟩)
                · rw [if_neg hkp, F2, if_neg hkg] at hk'
                  rcases h0.2 k r' hk' with ho | ho | ⟨j, u, hjs, hju, hgid⟩
                  · exact Or.inl ho
                  · exact Or.inr (Or.inl ho)
                  · exact Or.inr (Or.inr ⟨j, u, hMono j hjs, hju, hgid⟩)

theorem aggregateVisits_agginv (db : IdDb) (visits : List Visit) (st st' : WalkerState)
    (h0 : AggInv db st) (h : aggregateVisits db st visits = .ok st') : AggInv db st' := by
  induction visits generalizing st with
  | nil =>
    simp only [aggregateVisits] at h
    cases h
    exact h0
  | cons v vs ih =>
    simp only [aggregateVisits] at h
    split at h
    · cases h
    · next st1 heq =>
      exact ih st1 (addThing_agginv db st v.1 v.2.1 v.2.2 st1 h0 heq) h

theorem purgeUsers_id (ks : List Nat) (t : Table)
    (h : ∀ k r, dictFind t k = some r → r.files ≠ [] ∨ r.dirs ≠ []) :
    purgeUsers ks t = t := by
  induction ks with
  | nil => rfl
  | cons k ks ih =>
    cases hf : dictFind t k with
    | none =>
      rw [purgeUsers_cons_none k ks t hf]
      exact ih
    | some rec0 =>
      rw [purgeUsers_cons_some k ks t rec0 hf]
      have hc : ¬ (rec0.files.length = 0 ∧ rec0.dirs.length = 0) := by
        rintro ⟨ha, hb⟩
        rcases h k rec0 hf with h1 | h1
        · exact h1 (List.length_eq_zero.mp ha)
        · exact h1 (List.length_eq_zero.mp hb)
      rw [if_neg hc]
      exact ih

theorem trimMembership_shape (db : IdDb) (ut : Table) (ks : List Nat) (gt gt' : Table)
    (htr : trimMembership db ut ks gt = .ok gt') :
    dictKeys gt' = dictKeys gt ∧
    ∀ k r', dictFind gt' k = some r' →
      ∃ r, dictFind gt k = some r ∧ r'.files = r.files ∧ r'.dirs = r.dirs := by
  induction ks generalizing gt with
  | nil =>
    simp only [trimMembership] at htr
    cases htr
    exact ⟨rfl, fun k r' hk => ⟨r', hk, rfl, rfl⟩⟩
  | cons k ks ih =>
    simp only [trimMembership] at htr
    split at htr
    · exact ih gt htr
    · split at htr
      · exact ih gt htr
      · split at htr
        · cases htr
        · next keep heq =>
          obtain ⟨hk, hfd⟩ := ih _ htr
          refine ⟨by rw [hk, dictKeys_modify], ?_⟩
          intro j r' hj
          obtain ⟨r1, hr1, hf1, hd1⟩ := hfd j r' hj
          rw [dictFind_modify] at hr1
          by_cases hjk : j = k
          · rw [if_pos hjk] at hr1
            cases hfind : dictFind gt k with
            | some r0 =>
              rw [hfind, Option.map_some'] at hr1
              cases hr1
              refine ⟨r0, ?_, hf1, hd1⟩
              rw [hjk]
              exact hfind
            | none =>
              rw [hfind] at hr1
              cases hr1
          · rw [if_neg hjk] at hr1
            exact ⟨r1, hr1, hf1, hd1⟩

theorem lines_of_keys (t : Table) (wf2 : ∀ k r, dictFind t k = some r → r.id = k) :
    (ks : List Nat) → (∀ k ∈ ks, (dictFind t k).isSome) →
    ∃ rs : List Ownership,
      rs.map Ownership.id = ks ∧
      (ks.map (passwdLineFor t)
        = rs.map (fun r =>
            r.name ++ ":*:" ++ toString r.id ++ ":" ++ toString r.pgrp ++ ":::\n")) ∧
      (ks.map (groupLineFor insertionOrder t)
        = rs.map (fun r =>
            r.name ++ ":*:" ++ toString r.id ++ ":"
              ++ String.intercalate "," r.members ++ "\n"))
  | [], _ => ⟨[], rfl, rfl, rfl⟩
  | k :: ks, hks => by
    obtain ⟨r, hr⟩ := Option.isSome_iff_exists.mp (hks k (List.mem_cons_self k ks))
    obtain ⟨rs, h1, h2, h3⟩ :=
      lines_of_keys t wf2 ks (fun j hj => hks j (List.mem_cons_of_mem k hj))
    refine ⟨r :: rs, ?_, ?_, ?_⟩
    · simp only [List.map_cons, h1, wf2 k r hr]
    · simp only [List.map_cons, h2]
      congr 1
      simp [passwdLineFor, hr]
    · simp only [List.map_cons, h3]
      congr 1
      simp [groupLineFor, hr, insertionOrder]

theorem mem_setAdd {α : Type} [DecidableEq α] (s : List α) (x y : α) :
    y ∈ setAdd s x ↔ y ∈ s ∨ y = x := by
  by_cases h : x ∈ s
  · simp only [setAdd, if_pos h]
    constructor
    · exact Or.inl
    · rintro (hy | rfl)
      · exact hy
      · exact h
  · simp [setAdd, if_neg h]

/-- C3 (amended): when the root path does not exist, `Path.walk` with
`on_error=None` swallows the scandir error and yields nothing, so the run
exits successfully and writes both artifacts empty. -/
theorem c3_missing_root_succeeds_empty (db : IdDb) (top : String) :
    runMain db top .missing none = (.ok (), [("passwd", ""), ("group", "")]) := rfl

/-- C3 counterexample: with a nonexistent root the process exits
successfully with two empty artifacts, contradicting the claimed non-zero
termination without artifacts. -/
theorem c3_counterexample :
    runMain ⟨[], []⟩ "/nonexistent" .missing none
      = (.ok (), [("passwd", ""), ("group", "")]) := rfl

/-- C2 (amended): an entry whose `stat` fails — in particular a symbolic
link whose target does not exist — contributes nothing to the tables; but a
symbolic link whose target exists is recorded like a file, with the
ownership of its target (here uid 1000 acquires the link's path). -/
theorem c2_symlink_visibility :
    (∀ db st p ty, addThing db st p ty none = .ok st) ∧
    (buildAggregate dbC2 "/top" fsC2).map
        (fun st => (dictFind st.by_user 1000).map Ownership.files)
      = .ok (some ["/top/lnk"]) :=
  ⟨fun _ _ _ _ => rfl, rfl⟩

/-- C2 counterexample: scanning a tree holding only a symbolic link with an
existing target records ownership for the link's path, so symlinks are not
invisible when their target exists. -/
theorem c2_counterexample :
    (buildAggregate dbC2 "/top" fsC2).map (fun st => dictFind st.by_user 1000)
      = .ok (some ⟨"alice", 1000, 20, "", ["/top/lnk"], [], []⟩) := rfl

/-- C4 (amended): when the membership-trimming loop reaches a member name
with no passwd record, the uncaught `KeyError` aborts the whole filter pass
at once; the membership is not dropped and no later member is examined. -/
theorem c4_unresolved_member_aborts (db : IdDb) (ut : Table) (keep : List String)
    (mem : String) (rest : List String) (h : getpwnam db mem = none) :
    trimGroupMembers db ut keep (mem :: rest) = .error "KeyError: getpwnam" := by
  simp [trimGroupMembers, h]

/-- C4 witness: the generic abort theorem applied to the concrete fixture
with unresolvable member `zed`. -/
theorem c4_witness :
    trimGroupMembers dbC4 stC4.by_user [] ["zed"] = .error "KeyError: getpwnam" :=
  c4_unresolved_member_aborts dbC4 stC4.by_user [] "zed" [] rfl

/-- C4 counterexample: on the concrete state `stC4` the filter pass aborts
with the lookup error instead of dropping the membership and continuing. -/
theorem c4_counterexample :
    filterMembership dbC4 stC4 = .error "KeyError: getpwnam" := rfl

/-- C1 counterexample: an aggregated run whose seeded roster contains the
unresolvable name `zed` makes the filter pass abort, so the filter does not
complete normally on every aggregated table. -/
theorem c1_counterexample :
    build dbC1 "/t" fsC1 = .error "KeyError: getpwnam" := rfl

/-- C5 counterexample: when the owning gid of the entry equals the user's
primary gid and neither has a record yet, the newly created primary-group
record gets an empty member set although the database roster for that group
is non-empty. -/
theorem c5_counterexample :
    (addThing dbC5 initState "/t/f" FObj.FILE (some ⟨1002, 30⟩)).map
        (fun st => (dictFind st.by_group 30).map Ownership.members)
      = .ok (some []) ∧
    getgrgid dbC5 30 = some ⟨"team", 30, ["carol", "dave"]⟩ :=
  ⟨rfl, rfl⟩

/-- C6 (amended): the passwd artifact is byte-identical across runs
whatever member iteration order each run observes, and two runs observing
the same order produce byte-identical artifact pairs; only the member-name
order inside group lines can differ between runs. -/
theorem c6_deterministic_up_to_member_order (o1 o2 : MemOrder) (db : IdDb)
    (top : String) (root : FsRoot) :
    (runPipelineWith o1 db top root).map Prod.fst
      = (runPipelineWith o2 db top root).map Prod.fst ∧
    (o1 = o2 → runPipelineWith o1 db top root = runPipelineWith o2 db top root) := by
  constructor
  · cases h : build db top root <;> simp [runPipelineWith, h, Except.map]
  · intro h
    rw [h]

/-- C6 witness: two runs with the same member order on the concrete
two-user fixture coincide. -/
theorem c6_witness :
    runPipelineWith insertionOrder dbC6 "/t" fsC6
      = runPipelineWith insertionOrder dbC6 "/t" fsC6 :=
  (c6_deterministic_up_to_member_order insertionOrder insertionOrder dbC6 "/t" fsC6).2 rfl

/-- C6 counterexample: two runs over the unchanged tree and database that
observe two different (but equally valid) iteration orders of the same
member set produce different group artifacts, so re-running is not
byte-identical. -/
theorem c6_counterexample :
    runPipelineWith insertionOrder dbC6 "/t" fsC6
        ≠ runPipelineWith reverseOrder dbC6 "/t" fsC6 ∧
    (insertionOrder 20 ["alice", "bob"]).Perm (reverseOrder 20 ["alice", "bob"]) := by
  constructor
  · intro h
    have h1 : runPipelineWith insertionOrder dbC6 "/t" fsC6
        = .ok ("alice:*:1000:20:::\nbob:*:1001:20:::\n",
               "staff:*:20:alice,bob\ng99:*:99:\n") := rfl
    have h2 : runPipelineWith reverseOrder dbC6 "/t" fsC6
        = .ok ("alice:*:1000:20:::\nbob:*:1001:20:::\n",
               "staff:*:20:bob,alice\ng99:*:99:\n") := rfl
    rw [h1, h2] at h
    have h3 := congrArg Prod.snd (Except.ok.inj h)
    exact absurd h3 (by decide)
  · decide

/-- C7 (amended): the artifacts on disk after a run are always a prefix of
the fixed passwd-then-group write sequence: a run that fails before
`report` (in particular on an owning id with no identity-database record)
writes nothing, a successful run writes both, and an output-write failure
on the second artifact leaves exactly the passwd artifact — never the group
artifact alone. -/
theorem c7_write_sequence (db : IdDb) (top : String) (root : FsRoot)
    (budget : Option Nat) :
    ((runMain db top root budget).2.map Prod.fst = [] ∨
     (runMain db top root budget).2.map Prod.fst = ["passwd"] ∨
     (runMain db top root budget).2.map Prod.fst = ["passwd", "group"]) ∧
    (∀ e, build db top root = .error e → (runMain db top root budget).2 = []) ∧
    ((runMain db top root budget).1 = .ok ()
      → (runMain db top root budget).2.map Prod.fst = ["passwd", "group"]) := by
  cases hb : build db top root with
  | error e =>
    refine ⟨Or.inl ?_, fun _ _ => ?_, fun h => ?_⟩ <;>
      simp_all [runMain]
  | ok st =>
    match budget with
    | none =>
      refine ⟨Or.inr (Or.inr ?_), fun e he => ?_, fun h => ?_⟩ <;>
        simp_all [runMain, reportWrites]
    | some 0 =>
      refine ⟨Or.inl ?_, fun e he => ?_, fun h => ?_⟩ <;>
        simp_all [runMain, reportWrites]
    | some 1 =>
      refine ⟨Or.inr (Or.inl ?_), fun e he => ?_, fun h => ?_⟩ <;>
        simp_all [runMain, reportWrites]
    | some (k + 2) =>
      refine ⟨Or.inr (Or.inr ?_), fun e he => ?_, fun h => ?_⟩ <;>
        simp_all [runMain, reportWrites, List.take_succ_cons]

/-- C7 witness: a fully successful run on an empty tree leaves both
artifacts written. -/
theorem c7_witness :
    (runMain ⟨[], []⟩ "/top" (FsRoot.present []) none).2.map Prod.fst
      = ["passwd", "group"] :=
  (c7_write_sequence ⟨[], []⟩ "/top" (FsRoot.present []) none).2.2 rfl

/-- C7 counterexample: when the filesystem fails the second write, the run
ends with exactly one artifact (the passwd file) on disk, refuting the
claimed both-or-neither behavior. -/
theorem c7_counterexample :
    runMain ⟨[], []⟩ "/top" (FsRoot.present []) (some 1)
      = (.error "OSError: write failed", [("passwd", "")]) := rfl

/-- C9: after the membership filter completes, every user record remaining
in the user table owns at least one path — its `files` and `dirs`
collections are not both empty. -/
theorem c9_survivors_own (db : IdDb) (st st' : WalkerState) (uid : Nat) (rec : Ownership)
    (hf : filterMembership db st = .ok st')
    (hu : dictFind st'.by_user uid = some rec) :
    rec.files ≠ [] ∨ rec.dirs ≠ [] := by
  obtain ⟨pgrps, byGroup, _, _, _, hst⟩ := filterMembership_ok db st st' hf
  rw [hst] at hu
  refine purgeUsers_owns (dictKeys st.by_user) st.by_user uid rec ?_ hu
  intro k r hk
  left
  rw [← dictFind_isSome_iff_mem, hk]
  rfl

/-- C1 (amended): when the membership filter completes on an aggregated
table, the group table keeps exactly its keys — aggregation (against the
same identity database) never produces a group record that owns nothing and
is no surviving user's primary group, so the drop step deletes nothing —
the user table is unchanged, and every surviving group owns at least one
path or is the primary group of a surviving user.  The pass does not,
however, complete normally on every aggregated table: it aborts when a
seeded roster holds a name with no identity-database record. -/
theorem c1_surviving_groups (db : IdDb) (top : String) (root : FsRoot)
    (st st' : WalkerState)
    (hb : buildAggregate db top root = .ok st)
    (hf : filterMembership db st = .ok st') :
    dictKeys st'.by_group = dictKeys st.by_group ∧
    st'.by_user = st.by_user ∧
    ∀ k r, dictFind st'.by_group k = some r →
      r.files ≠ [] ∨ r.dirs ≠ [] ∨
      ∃ j u, (dictFind st'.by_user j).isSome ∧ getpwuid db j = some u ∧ u.pw_gid = k := by
  have hb' : aggregateVisits db initState (buildVisits top root) = .ok st := hb
  have hinv : AggInv db st := by
    refine aggregateVisits_agginv db (buildVisits top root) initState st ?_ hb'
    exact ⟨fun k r hk => Option.noConfusion hk, fun k r hk => Option.noConfusion hk⟩
  obtain ⟨pgrps, byGroup, h1, h2, h3, h4⟩ := filterMembership_ok db st st' hf
  have hpurge : purgeUsers (dictKeys st.by_user) st.by_user = st.by_user :=
    purgeUsers_id _ _ hinv.1
  obtain ⟨hkeys, hshape⟩ :=
    trimMembership_shape db _ (dictKeys st.by_group) st.by_group byGroup h3
  subst h4
  refine ⟨hkeys, hpurge, ?_⟩
  intro k r hk
  obtain ⟨r0, hr0, hfEq, hdEq⟩ := hshape k r hk
  rcases hinv.2 k r0 hr0 with ho | ho | ⟨j, u, hjs, hju, hgid⟩
  · refine Or.inl ?_
    rw [hfEq]
    exact ho
  · refine Or.inr (Or.inl ?_)
    rw [hdEq]
    exact ho
  · refine Or.inr (Or.inr ⟨j, u, ?_, hju, hgid⟩)
    show (dictFind (purgeUsers (dictKeys st.by_user) st.by_user) j).isSome
    rw [hpurge]
    exact hjs

/-- C1 witness: the surviving-group characterization applied to the
concrete one-file run. -/
theorem c1_witness :
    dictKeys stW.by_group = dictKeys stW.by_group ∧
    stW.by_user = stW.by_user ∧
    ∀ k r, dictFind stW.by_group k = some r →
      r.files ≠ [] ∨ r.dirs ≠ [] ∨
      ∃ j u, (dictFind stW.by_user j).isSome ∧ getpwuid dbW j = some u ∧ u.pw_gid = k :=
  c1_surviving_groups dbW "/t" fsW stW stW rfl rfl

/-- C5 (amended): at a `record` call where the owning user's primary gid
has no existing group record, the newly created record's members equal the
identity database roster exactly when the primary gid differs from the
entry's owning gid; when the two coincide, the record is created by the
owning-gid step with an empty member set and the roster is never copied. -/
theorem c5_primary_group_members (db : IdDb) (st : WalkerState) (item : String)
    (ty : FObj) (s : Stat) (pwent : PwEnt) (gent gdef : GrEnt)
    (hu : getpwuid db s.st_uid = some pwent)
    (hg : getgrgid db s.st_gid = some gent)
    (hpg : getgrgid db pwent.pw_gid = some gdef)
    (habsent : dictFind st.by_group pwent.pw_gid = none) :
    ∃ st', addThing db st item ty (some s) = .ok st' ∧
      (dictFind st'.by_group pwent.pw_gid).map Ownership.members
        = some (if pwent.pw_gid = s.st_gid then [] else pySet gdef.gr_mem) := by
  rw [addThing_some_eq db st item ty s pwent gent hu hg]
  simp only [addThingResolved]
  set st3 := insertGroup
      (insertUser { st with pgrps := setAdd st.pgrps pwent.pw_gid }
        s.st_uid (mkUserRec s.st_uid pwent))
      s.st_gid (mkGroupRec s.st_gid gent) with hst3
  have hfind3 : ∀ j, dictFind st3.by_group j
      = if j = s.st_gid
        then some ((dictFind st.by_group s.st_gid).getD (mkGroupRec s.st_gid gent))
        else dictFind st.by_group j := by
    intro j
    rw [hst3, insertGroup_find, insertUser_by_group]
  by_cases he : pwent.pw_gid = s.st_gid
  · have hgid : dictFind st.by_group s.st_gid = none := by rw [← he]; exact habsent
    have hcond : (dictFind st3.by_group pwent.pw_gid).isSome := by
      rw [hfind3, if_pos he, hgid]
      rfl
    rw [if_pos hcond]
    refine ⟨_, rfl, ?_⟩
    rw [appendItem_group_members, hfind3, if_pos he, hgid, if_pos he]
    rfl
  · have hcond : ¬ (dictFind st3.by_group pwent.pw_gid).isSome = true := by
      rw [hfind3, if_neg he, habsent]
      simp
    rw [if_neg hcond, hpg]
    refine ⟨_, rfl, ?_⟩
    rw [appendItem_group_members]
    dsimp only
    rw [dictFind_insert, if_pos rfl, if_neg he]
    rfl

/-- C5 witness: the amended theorem at the concrete fixture where `dora`'s
primary group 40 differs from the owning gid 41, showing the roster
actually copied. -/
theorem c5_witness :
    getpwuid dbC5b 1003 = some ⟨"dora", 1003, 40, ""⟩ ∧
    ∃ st', addThing dbC5b initState "/t/f" FObj.FILE (some ⟨1003, 41⟩) = .ok st' ∧
      (dictFind st'.by_group 40).map Ownership.members
        = some (if (40 : Nat) = 41 then [] else pySet ["dora", "eve"]) :=
  ⟨rfl, c5_primary_group_members dbC5b initState "/t/f" FObj.FILE ⟨1003, 41⟩
    ⟨"dora", 1003, 40, ""⟩ ⟨"g41", 41, []⟩ ⟨"team40", 40, ["dora", "eve"]⟩
    rfl rfl rfl rfl⟩

/-- C10: the root path itself is never visited nor recorded: every visited
path lies strictly below the root, no aggregated record owns the root path
in its `files` or `dirs`, and a root with no entries yields empty tables. -/
theorem c10_root_never_recorded (db : IdDb) (top : String) (root : FsRoot)
    (st : WalkerState) (hb : buildAggregate db top root = .ok st) :
    (∀ v ∈ buildVisits top root, v.1 ≠ top) ∧
    (∀ k r, dictFind st.by_user k = some r → top ∉ r.files ∧ top ∉ r.dirs) ∧
    (∀ k r, dictFind st.by_group k = some r → top ∉ r.files ∧ top ∉ r.dirs) ∧
    buildAggregate db top (FsRoot.present []) = .ok initState := by
  have hvis : ∀ v ∈ buildVisits top root, v.1 ≠ top := by
    cases root with
    | missing => simp [buildVisits]
    | present cs => exact fun v hv => walkVisits_path_ne_top top cs v hv
  have hstate : StatePathsProp st (fun x => x ≠ top) := by
    refine aggregateVisits_paths db (buildVisits top root) initState st _ ?_ hvis hb
    constructor <;> exact fun k r hk => Option.noConfusion hk
  refine ⟨hvis, ?_, ?_, rfl⟩
  · intro k r hk
    obtain ⟨h1, h2⟩ := hstate.1 k r hk
    exact ⟨fun hm => (h1 top hm) rfl, fun hm => (h2 top hm) rfl⟩
  · intro k r hk
    obtain ⟨h1, h2⟩ := hstate.2 k r hk
    exact ⟨fun hm => (h1 top hm) rfl, fun hm => (h2 top hm) rfl⟩

/-- C10 witness: the root theorem applied to the concrete one-file run. -/
theorem c10_witness :
    (∀ v ∈ buildVisits "/t" fsW, v.1 ≠ "/t") ∧
    (∀ k r, dictFind stW.by_user k = some r → "/t" ∉ r.files ∧ "/t" ∉ r.dirs) ∧
    (∀ k r, dictFind stW.by_group k = some r → "/t" ∉ r.files ∧ "/t" ∉ r.dirs) ∧
    buildAggregate dbW "/t" (FsRoot.present []) = .ok initState :=
  c10_root_never_recorded dbW "/t" fsW stW rfl

/-- C8: after a successful run, the passwd artifact is the concatenation of
exactly one line `name:*:id:primary_group_id:::` per surviving user and the
group artifact exactly one line `name:*:id:member1,member2,...` per
surviving group (comma-joined, no trailing comma, empty when no members),
with lines ordered by strictly ascending numeric id and no duplicate ids. -/
theorem c8_artifact_format (db : IdDb) (top : String) (root : FsRoot) (st : WalkerState)
    (hb : build db top root = .ok st) :
    ∃ us gs : List Ownership,
      (us.map Ownership.id).Pairwise (· < ·) ∧
      (gs.map Ownership.id).Pairwise (· < ·) ∧
      (∀ uid, (dictFind st.by_user uid).isSome ↔ uid ∈ us.map Ownership.id) ∧
      (∀ gid, (dictFind st.by_group gid).isSome ↔ gid ∈ gs.map Ownership.id) ∧
      passwdText st = (us.map (fun r =>
        r.name ++ ":*:" ++ toString r.id ++ ":" ++ toString r.pgrp ++ ":::\n")).foldl
          (· ++ ·) "" ∧
      groupText st = (gs.map (fun r =>
        r.name ++ ":*:" ++ toString r.id ++ ":"
          ++ String.intercalate "," r.members ++ "\n")).foldl (· ++ ·) "" := by
  have hwf := build_wf db top root st hb
  obtain ⟨us, hu1, hu2, _⟩ := lines_of_keys st.by_user hwf.1.2 (sortedKeys st.by_user)
    (fun k hk => (dictFind_isSome_iff_mem _ _).mpr ((mem_sortedKeys _ _).mp hk))
  obtain ⟨gs, hg1, _, hg3⟩ := lines_of_keys st.by_group hwf.2.2 (sortedKeys st.by_group)
    (fun k hk => (dictFind_isSome_iff_mem _ _).mpr ((mem_sortedKeys _ _).mp hk))
  refine ⟨us, gs, ?_, ?_, ?_, ?_, ?_, ?_⟩
  · rw [hu1]
    exact sortedKeys_pairwise_lt st.by_user hwf.1.1
  · rw [hg1]
    exact sortedKeys_pairwise_lt st.by_group hwf.2.1
  · intro uid
    rw [hu1, mem_sortedKeys, dictFind_isSome_iff_mem]
  · intro gid
    rw [hg1, mem_sortedKeys, dictFind_isSome_iff_mem]
  · unfold passwdText
    rw [hu2]
  · unfold groupText groupTextWith
    rw [hg3]

/-- C8 witness: the format theorem applied to the concrete one-file run. -/
theorem c8_witness :
    ∃ us gs : List Ownership,
      (us.map Ownership.id).Pairwise (· < ·) ∧
      (gs.map Ownership.id).Pairwise (· < ·) ∧
      (∀ uid, (dictFind stW.by_user uid).isSome ↔ uid ∈ us.map Ownership.id) ∧
      (∀ gid, (dictFind stW.by_group gid).isSome ↔ gid ∈ gs.map Ownership.id) ∧
      passwdText stW = (us.map (fun r =>
        r.name ++ ":*:" ++ toString r.id ++ ":" ++ toString r.pgrp ++ ":::\n")).foldl
          (· ++ ·) "" ∧
      groupText stW = (gs.map (fun r =>
        r.name ++ ":*:" ++ toString r.id ++ ":"
          ++ String.intercalate "," r.members ++ "\n")).foldl (· ++ ·) "" :=
  c8_artifact_format dbW "/t" fsW stW rfl

/-- C9 witness: the filter theorem applied to the concrete one-user run. -/
theorem c9_witness :
    (⟨"alice", 1000, 20, "", ["/t/f"], [], []⟩ : Ownership).files ≠ [] ∨
    (⟨"alice", 1000, 20, "", ["/t/f"], [], []⟩ : Ownership).dirs ≠ [] :=
  c9_survivors_own dbW stW stW 1000 ⟨"alice", 1000, 20, "", ["/t/f"], [], []⟩ rfl rfl

end Walkies
